import Mathlib

/-
Verification of the mailgun/lemma request-signing library.

The Go sources are embedded shallowly:
  * Go byte slices and Go strings (which are byte strings) are both `Bytes`,
    i.e. `List Nat`, with each element intended to be a byte value < 256.
  * Machine integers (`int`, `int64`) are `Int`; Unix timestamps never come
    close to the 64-bit boundary, and `strconv.ParseInt`'s 64-bit range check
    is modelled explicitly.
  * Fallible Go functions returning `(T, error)` become `Except Err T`, with
    one `Err` constructor per `fmt.Errorf`/`errors.New` site.
  * External collaborators (the system clock, `/dev/urandom`, the disk, the
    HMAC-SHA256 primitive from `crypto/hmac` + `crypto/sha256`, the nacl
    secretbox primitive) are passed in as explicit arguments.
-/

/-- Go byte strings: both `[]byte` and `string` (a Go string is an immutable
byte sequence). Elements are byte values. -/
abbrev Bytes := List Nat

/-- Byte string of an ASCII Lean string literal (used for the Go string
literals appearing in the source). -/
def str (s : String) : Bytes := s.data.map Char.toNat

/-- Decimal digit characters of a positive natural, most significant first.
Structural fuel recursion (fuel `n` suffices because `n < 10 ^ n`), so that
the kernel can evaluate it on literals. Models the digit loop inside Go's
`strconv.FormatInt`/`fmt.Sprintf` with the `%v` verb on an integer. -/
def natToDecAux (fuel : Nat) (n : Nat) : Bytes :=
  match fuel with
  | 0 => []
  | fuel + 1 => if n = 0 then [] else natToDecAux fuel (n / 10) ++ [48 + n % 10]

/-- Decimal (ASCII) rendering of a natural number, as Go prints it. -/
def natToDec (n : Nat) : Bytes := if n = 0 then [48] else natToDecAux n n

/-- Decimal (ASCII) rendering of an integer: Go `strconv.FormatInt(i, 10)`. -/
def intToDec (i : Int) : Bytes :=
  if i < 0 then 45 :: natToDec i.natAbs else natToDec i.toNat

/-- Value of a decimal digit character, `none` for non-digits. -/
def decDigit? (c : Nat) : Option Nat :=
  if 48 ≤ c ∧ c ≤ 57 then some (c - 48) else none

/-- Accumulator-style value of a most-significant-first decimal digit string. -/
def decVal (s : Bytes) (acc : Nat) : Nat :=
  match s with
  | [] => acc
  | c :: cs => decVal cs (acc * 10 + (c - 48))

/-- Parse a non-empty all-digit byte string as a natural number. -/
def parseNatDigits (s : Bytes) : Option Nat :=
  if s = [] then none
  else if s.all (fun c => 48 ≤ c && c ≤ 57) then some (decVal s 0)
  else none

/-- Smallest value of a Go `int64`. -/
def int64Min : Int := -9223372036854775808

/-- Largest value of a Go `int64`. -/
def int64Max : Int := 9223372036854775807

/-- Go `strconv.ParseInt(s, 10, 0)`: an optional sign followed by decimal
digits, rejected when the value overflows 64 bits. -/
def parseInt64 (s : Bytes) : Option Int :=
  match s with
  | [] => none
  | c :: rest =>
    if c = 45 then
      (parseNatDigits rest).bind fun n =>
        if int64Min ≤ -(n : Int) then some (-(n : Int)) else none
    else if c = 43 then
      (parseNatDigits rest).bind fun n =>
        if (n : Int) ≤ int64Max then some (n : Int) else none
    else
      (parseNatDigits (c :: rest)).bind fun n =>
        if (n : Int) ≤ int64Max then some (n : Int) else none

/-- Lowercase hexadecimal digit character for a value below 16. -/
def hexDigitChar (d : Nat) : Nat := if d < 10 then 48 + d else 87 + d

/-- Go `hex.EncodeToString`: two lowercase hex digits per byte. -/
def hexEncode : Bytes → Bytes
  | [] => []
  | b :: bs => hexDigitChar (b / 16) :: hexDigitChar (b % 16) :: hexEncode bs

/-- Value of a hexadecimal digit character (Go `hex` accepts both cases). -/
def hexCharVal (c : Nat) : Option Nat :=
  if 48 ≤ c ∧ c ≤ 57 then some (c - 48)
  else if 97 ≤ c ∧ c ≤ 102 then some (c - 87)
  else if 65 ≤ c ∧ c ≤ 70 then some (c - 55)
  else none

/-- Go `hex.DecodeString`: fails on odd length or a non-hex character. -/
def hexDecode : Bytes → Option Bytes
  | [] => some []
  | [_] => none
  | h :: l :: rest =>
    match hexCharVal h, hexCharVal l, hexDecode rest with
    | some hi, some lo, some tl => some ((16 * hi + lo) :: tl)
    | _, _, _ => none

/-- Decidable equality of Go-style results, so that concrete runs can be
checked by `decide`. -/
instance {ε α : Type} [DecidableEq ε] [DecidableEq α] : DecidableEq (Except ε α) := fun a b =>
  match a, b with
  | .error e, .error f =>
    if h : e = f then .isTrue (by rw [h]) else .isFalse (by intro c; injection c; contradiction)
  | .ok x, .ok y =>
    if h : x = y then .isTrue (by rw [h]) else .isFalse (by intro c; injection c; contradiction)
  | .error _, .ok _ => .isFalse (by intro c; injection c)
  | .ok _, .error _ => .isFalse (by intro c; injection c)

namespace Httpsign

/-- One constructor per error construction site in package httpsign
(`fmt.Errorf` / `errors.New`), carrying the data formatted into the message. -/
inductive Err where
  /-- New/NewWithProviders: "config is required." -/
  | configRequired : Err
  /-- NewNonceCache: the ttlmap constructor rejects a non-positive capacity. -/
  | invalidCacheCapacity : Err
  /-- SignRequest/AuthenticateRequest: "service not loaded with key." -/
  | serviceNotLoadedWithKey : Err
  /-- SignRequestWithKey: "unable to get random : %v". -/
  | unableToGetRandom : Err
  /-- AuthenticateRequestWithKey: "header not found: %v". -/
  | headerNotFound (header : Bytes) : Err
  /-- extractHeaderValues: "header %v not found in request.". -/
  | headerNotInRequest (header : Bytes) : Err
  /-- checkMAC: hex.DecodeString failed on the signature header. -/
  | hexDecodeError : Err
  /-- checkMAC: "invalid signature". -/
  | invalidSignature : Err
  /-- checkTimestamp: "unable to parse %v: %v". -/
  | timestampParse (header value : Bytes) : Err
  /-- checkTimestamp: "timestamp header from the future; ...". -/
  | timestampFromFuture (now timestamp : Int) : Err
  /-- checkTimestamp: "timestamp header too old; ...". -/
  | timestampTooOld (now timestamp : Int) : Err
  /-- AuthenticateRequestWithKey: "nonce already in cache: %v". -/
  | nonceInCache (nonce : Bytes) : Err
  /-- readKeyFromDisk: ioutil.ReadFile returned an error. -/
  | keyReadFailure : Err
  deriving DecidableEq, Repr

/-- constants.go: `MaxSkewSec = 5`. -/
def MaxSkewSec : Int := 5

/-- constants.go: `CacheTimeout = 100`. -/
def CacheTimeout : Int := 100

/-- constants.go: `CacheCapacity = 5000 * CacheTimeout`. -/
def CacheCapacity : Int := 5000 * CacheTimeout

/-- constants.go: default nonce header name. -/
def XMailgunNonce : Bytes := str "X-Mailgun-Nonce"

/-- constants.go: default timestamp header name. -/
def XMailgunTimestamp : Bytes := str "X-Mailgun-Timestamp"

/-- constants.go: default signature header name. -/
def XMailgunSignature : Bytes := str "X-Mailgun-Signature"

/-- constants.go: default signature version header name. -/
def XMailgunSignatureVersion : Bytes := str "X-Mailgun-Signature-Version"

/-- auth.go `Config`. The three statsd fields configure the external metrics
sink and are never read by the modelled operations. -/
structure Config where
  Keypath : Bytes
  HeadersToSign : List Bytes
  SignVerbAndURI : Bool
  NonceCacheCapacity : Int
  NonceCacheTimeout : Int
  EmitStats : Bool
  StatsdHost : Bytes
  StatsdPort : Int
  StatsdPrefix : Bytes
  NonceHeaderName : Bytes
  TimestampHeaderName : Bytes
  SignatureHeaderName : Bytes
  SignatureVersionHeaderName : Bytes
  deriving DecidableEq, Repr

/-- An HTTP request, restricted to the parts the package reads: method,
`r.URL.RequestURI()`, the body bytes (a nil body reads as ""), and the
header map. -/
structure Request where
  method : Bytes
  requestURI : Bytes
  body : Bytes
  headers : List (Bytes × Bytes)
  deriving DecidableEq, Repr

/-- net/http `Header.Get`: first value for the name, "" when absent.
Go canonicalizes header names; since the package uses one spelling per
name throughout, canonicalization is the identity here. -/
def headerGet (h : List (Bytes × Bytes)) (name : Bytes) : Bytes :=
  match h with
  | [] => []
  | (k, v) :: rest => if k = name then v else headerGet rest name

/-- Presence test used by `extractHeaderValues` (`_, ok := r.Header[name]`). -/
def headerHas (h : List (Bytes × Bytes)) (name : Bytes) : Bool :=
  match h with
  | [] => false
  | (k, _) :: rest => if k = name then true else headerHas rest name

/-- Remove every entry for a name. -/
def headerDel (h : List (Bytes × Bytes)) (name : Bytes) : List (Bytes × Bytes) :=
  match h with
  | [] => []
  | (k, v) :: rest =>
    if k = name then headerDel rest name else (k, v) :: headerDel rest name

/-- net/http `Header.Set`: replace all values for the name by one value. -/
def headerSet (h : List (Bytes × Bytes)) (name value : Bytes) : List (Bytes × Bytes) :=
  (name, value) :: headerDel h name

/-- nonce.go `NonceCache`. The backing `ttlmap.TtlMap` (external library
github.com/mailgun/ttlmap) is modelled from the spec as an association from
nonce to expiry instant: an entry written at time `t` with ttl `d` is visible
to `Get` exactly while `now < t + d` ("entries expire automatically after ttl
seconds from insertion"); capacity eviction is out of scope of the claims.
The mutex makes check-and-insert atomic; calls are serialized here. -/
structure NonceCache where
  entries : List (Bytes × Int)
  cacheTTL : Int
  deriving DecidableEq, Repr

/-- ttlmap `Get`: is there an unexpired entry for this key now? -/
def ttlmapGet (entries : List (Bytes × Int)) (now : Int) (key : Bytes) : Bool :=
  entries.any fun e => decide (e.1 = key ∧ now < e.2)

/-- ttlmap `Set`: (re)insert a key with the given ttl in seconds. -/
def ttlmapSet (entries : List (Bytes × Int)) (now : Int) (key : Bytes)
    (ttl : Int) : List (Bytes × Int) :=
  (key, now + ttl) :: entries.filter fun e => !decide (e.1 = key)

/-- nonce.go `NonceCache.InCache`: if the nonce is cached return true,
otherwise insert it with the cache's ttl and return false. Returns the
updated cache (the Go method mutates the receiver). -/
def NonceCache.InCache (n : NonceCache) (now : Int) (nonce : Bytes) :
    Bool × NonceCache :=
  if ttlmapGet n.entries now nonce then (true, n)
  else (false, { n with entries := ttlmapSet n.entries now nonce n.cacheTTL })

/-- nonce.go `NewNonceCache`. The external ttlmap constructor fails on a
non-positive capacity (spec 4.2: "construction fails if capacity/ttl are
non-positive after defaulting"). -/
def NewNonceCache (capacity cacheTTL : Int) : Except Err NonceCache :=
  if capacity < 1 then .error .invalidCacheCapacity
  else .ok { entries := [], cacheTTL := cacheTTL }

/-- auth.go `checkTimestamp`. Parameters: the configured timestamp header
name, the nonce cache's ttl, the clock reading (`s.timeProvider.UtcNow().Unix()`)
and the timestamp header value. Go returns `(bool, error)`; the `Except`
mirrors it (`.ok ()` for `(true, nil)`). -/
def checkTimestamp (timestampHeaderName : Bytes) (cacheTTL : Int) (now : Int)
    (timestampHeader : Bytes) : Except Err Unit :=
  match parseInt64 timestampHeader with
  | none => .error (.timestampParse timestampHeaderName timestampHeader)
  | some timestamp =>
    if timestamp ≥ now + MaxSkewSec then
      .error (.timestampFromFuture now timestamp)
    else if timestamp ≤ now - (cacheTTL - MaxSkewSec) then
      .error (.timestampTooOld now timestamp)
    else .ok ()

/-- auth.go `computeMAC`, the exact byte stream written into the HMAC: the
`mac.Write` calls in source order, with `fmt.Sprintf("%v|", len(x))` and
`fmt.Sprintf("|%v|", len(x))` spelled out (124 is the pipe character). -/
def macInput (signVerbAndUri : Bool) (httpVerb httpResourceUri : Bytes)
    (timestamp nonce : Bytes) (body : Bytes) (headerValues : List Bytes) : Bytes :=
  natToDec timestamp.length ++ [124] ++ timestamp ++
  ([124] ++ natToDec nonce.length ++ [124]) ++ nonce ++
  ([124] ++ natToDec body.length ++ [124]) ++ body ++
  (if signVerbAndUri then
    ([124] ++ natToDec httpVerb.length ++ [124]) ++ httpVerb ++
    ([124] ++ natToDec httpResourceUri.length ++ [124]) ++ httpResourceUri
   else []) ++
  (headerValues.flatMap fun headerValue =>
    ([124] ++ natToDec headerValue.length ++ [124]) ++ headerValue)

/-- auth.go `computeMAC`: HMAC-SHA256 over the canonical stream. The HMAC
primitive itself comes from Go's crypto standard library and is passed in
as a function argument. -/
def computeMAC (hmacSha256 : Bytes → Bytes → Bytes) (secretKey : Bytes)
    (signVerbAndUri : Bool) (httpVerb httpResourceUri : Bytes)
    (timestamp nonce : Bytes) (body : Bytes) (headerValues : List Bytes) : Bytes :=
  hmacSha256 secretKey
    (macInput signVerbAndUri httpVerb httpResourceUri timestamp nonce body headerValues)

/-- auth.go `checkMAC`: hex-decode the received signature, recompute the MAC,
constant-time compare (`hmac.Equal` is equality of the byte slices). -/
def checkMAC (hmacSha256 : Bytes → Bytes → Bytes) (secretKey : Bytes)
    (signVerbAndUri : Bool) (httpVerb httpResourceUri : Bytes)
    (timestamp nonce : Bytes) (body : Bytes) (headerValues : List Bytes)
    (signature : Bytes) : Except Err Unit :=
  match hexDecode signature with
  | none => .error .hexDecodeError
  | some expectedMAC =>
    if expectedMAC = computeMAC hmacSha256 secretKey signVerbAndUri httpVerb
        httpResourceUri timestamp nonce body headerValues then .ok ()
    else .error .invalidSignature

/-- auth.go `extractHeaderValues`: every requested header must be present in
the request (`_, ok := r.Header[name]`), and its `Get` value is collected in
declaration order; an empty request list yields nil. -/
def extractHeaderValues (h : List (Bytes × Bytes)) :
    List Bytes → Except Err (List Bytes)
  | [] => .ok []
  | name :: rest =>
    if headerHas h name then
      match extractHeaderValues h rest with
      | .error e => .error e
      | .ok vs => .ok (headerGet h name :: vs)
    else .error (.headerNotInRequest name)

/-- auth.go `SignRequestWithKey`. The random provider's `HexDigest(16)`
outcome is the `nonceHex` argument and the clock reading is `now`; the body
is read non-destructively (buffer-and-replace), so the request keeps its
body. Returns the request with the four authentication headers set. -/
def SignRequestWithKey (config : Config) (nonceHex : Except Err Bytes)
    (now : Int) (r : Request) (secretKey : Bytes)
    (hmacSha256 : Bytes → Bytes → Bytes) : Except Err Request :=
  match extractHeaderValues r.headers config.HeadersToSign with
  | .error e => .error e
  | .ok headerValues =>
    match nonceHex with
    | .error _ => .error .unableToGetRandom
    | .ok nonce =>
      let signature := hexEncode (computeMAC hmacSha256 secretKey
        config.SignVerbAndURI r.method r.requestURI (intToDec now) nonce
        r.body headerValues)
      let h1 := headerSet r.headers config.NonceHeaderName nonce
      let h2 := headerSet h1 config.TimestampHeaderName (intToDec now)
      let h3 := headerSet h2 config.SignatureHeaderName signature
      let h4 := headerSet h3 config.SignatureVersionHeaderName (str "2")
      .ok { r with headers := h4 }

/-- auth.go `AuthenticateRequestWithKey`. Returns the per-request result
together with the nonce cache after the call (the cache is the only state
the call can mutate; the success/failure metric emission is external
observability and carries no state of its own). -/
def AuthenticateRequestWithKey (config : Config) (cache : NonceCache)
    (now : Int) (r : Request) (secretKey : Bytes)
    (hmacSha256 : Bytes → Bytes → Bytes) : Except Err Unit × NonceCache :=
  if headerGet r.headers config.SignatureHeaderName = [] then
    (.error (.headerNotFound config.SignatureHeaderName), cache)
  else if headerGet r.headers config.NonceHeaderName = [] then
    (.error (.headerNotFound config.NonceHeaderName), cache)
  else if headerGet r.headers config.TimestampHeaderName = [] then
    (.error (.headerNotFound config.TimestampHeaderName), cache)
  else
    match extractHeaderValues r.headers config.HeadersToSign with
    | .error e => (.error e, cache)
    | .ok headerValues =>
      match checkMAC hmacSha256 secretKey config.SignVerbAndURI r.method
          r.requestURI (headerGet r.headers config.TimestampHeaderName)
          (headerGet r.headers config.NonceHeaderName) r.body headerValues
          (headerGet r.headers config.SignatureHeaderName) with
      | .error e => (.error e, cache)
      | .ok _ =>
        match checkTimestamp config.TimestampHeaderName cache.cacheTTL now
            (headerGet r.headers config.TimestampHeaderName) with
        | .error e => (.error e, cache)
        | .ok _ =>
          match cache.InCache now (headerGet r.headers config.NonceHeaderName) with
          | (true, cache') =>
            (.error (.nonceInCache (headerGet r.headers config.NonceHeaderName)), cache')
          | (false, cache') => (.ok (), cache')

/-- auth.go `readKeyFromDisk`: the `ioutil.ReadFile` outcome is passed in
(`none` models a read error); a single trailing newline is stripped. -/
def readKeyFromDisk (contents : Option Bytes) : Except Err Bytes :=
  match contents with
  | none => .error .keyReadFailure
  | some keyBytes =>
    .ok (if keyBytes.getLast? = some 10 then keyBytes.dropLast else keyBytes)

/-- Defaulting block at the top of auth.go `NewWithProviders`: each
zero-valued field of the caller's Config is overwritten in place. -/
def applyDefaults (config : Config) : Config :=
  { config with
    NonceCacheCapacity :=
      if config.NonceCacheCapacity < 1 then CacheCapacity
      else config.NonceCacheCapacity
    NonceCacheTimeout :=
      if config.NonceCacheTimeout < 1 then CacheTimeout
      else config.NonceCacheTimeout
    NonceHeaderName :=
      if config.NonceHeaderName = [] then XMailgunNonce
      else config.NonceHeaderName
    TimestampHeaderName :=
      if config.TimestampHeaderName = [] then XMailgunTimestamp
      else config.TimestampHeaderName
    SignatureHeaderName :=
      if config.SignatureHeaderName = [] then XMailgunSignature
      else config.SignatureHeaderName
    SignatureVersionHeaderName :=
      if config.SignatureVersionHeaderName = [] then XMailgunSignatureVersion
      else config.SignatureVersionHeaderName }

/-- auth.go `Service`. The time/random providers and the metrics client are
external collaborators whose outputs are passed to each operation, so the
modelled state is the (mutated, shared) Config, the nonce cache and the
optional default key. -/
structure Service where
  config : Config
  nonceCache : NonceCache
  secretKey : Option Bytes
  deriving DecidableEq, Repr

/-- auth.go `NewWithProviders`. `diskContents` is what `ioutil.ReadFile`
would return for `config.Keypath` (`none` = read failure). The statsd
metrics-client construction under `EmitStats` is external observability and
is elided. The result pairs the caller's Config as it stands after the call
(the function writes defaults through the pointer it was given) with the
service, whose `config` field aliases that same struct. Note the read error
of `readKeyFromDisk` is discarded: `keyBytes, err := readKeyFromDisk(...)`
is immediately followed by `ncache, err := NewNonceCache(...)`, the comment
reading "if no key is read that's okay it might be passed in". -/
def NewWithProviders (config? : Option Config) (diskContents : Option Bytes) :
    Except Err (Config × Service) :=
  match config? with
  | none => .error .configRequired
  | some config0 =>
    let config := applyDefaults config0
    let keyBytes : Option Bytes := (readKeyFromDisk diskContents).toOption
    match NewNonceCache config.NonceCacheCapacity config.NonceCacheTimeout with
    | .error e => .error e
    | .ok ncache =>
      .ok (config, { config := config, nonceCache := ncache, secretKey := keyBytes })

/-- auth.go `SignRequest`: the default-key variant. -/
def SignRequest (s : Service) (nonceHex : Except Err Bytes) (now : Int)
    (r : Request) (hmacSha256 : Bytes → Bytes → Bytes) : Except Err Request :=
  match s.secretKey with
  | none => .error .serviceNotLoadedWithKey
  | some key => SignRequestWithKey s.config nonceHex now r key hmacSha256

/-- auth.go `AuthenticateRequest`: the default-key variant. -/
def AuthenticateRequest (s : Service) (now : Int) (r : Request)
    (hmacSha256 : Bytes → Bytes → Bytes) : Except Err Unit × NonceCache :=
  match s.secretKey with
  | none => (.error .serviceNotLoadedWithKey, s.nonceCache)
  | some key => AuthenticateRequestWithKey s.config s.nonceCache now r key hmacSha256

end Httpsign

namespace Secret

/-- Error sites of package secret. -/
inductive Err where
  /-- SealWithKey/OpenWithKey: "secret key is nil". -/
  | secretKeyNil : Err
  /-- keySliceToArray: "wrong key length: %v". -/
  | wrongKeyLength (len : Nat) : Err
  /-- nonceSliceToArray: "wrong nonce length: %v". -/
  | wrongNonceLength (len : Nat) : Err
  /-- SealWithKey: "unable to generate nonce: %v". -/
  | unableToGenerateNonce : Err
  /-- OpenWithKey: "unable to decrypt message". -/
  | unableToDecrypt : Err
  /-- New/readKeyFromDisk: reading or decoding the key file failed. -/
  | keyReadFailure : Err
  deriving DecidableEq, Repr

/-- Modelled from the spec: `SecretKeyLength` is declared in the secret
package's constants file, which is not under src/; the spec fixes the
sealing key at 32 bytes ("fixed-length (32-byte) symmetric key"). -/
def SecretKeyLength : Nat := 32

/-- Modelled from the spec: `NonceLength` is declared in the secret
package's constants file, which is not under src/; the spec fixes the
sealing nonce at 24 bytes ("nonce: 24-byte array"). -/
def NonceLength : Nat := 24

/-- secret service `SealedBytes`: ciphertext plus the nonce it was sealed
with. -/
structure SealedBytes where
  Ciphertext : Bytes
  Nonce : Bytes
  deriving DecidableEq, Repr

/-- Modelled from the spec: `secretbox.Seal` of the external nacl library,
an AEAD ("stream cipher + Poly1305-style authenticator"). The functional
contract is all the claims use: sealing under (key, nonce) produces a
ciphertext from which `secretbox_Open` recovers the plaintext exactly when
opened under the same key and nonce, and fails otherwise. It is modelled as
the plaintext tagged with the key and nonce (`out` is the Go append
target). -/
def secretbox_Seal (out : Bytes) (message : Bytes) (nonce : Bytes)
    (key : Bytes) : Bytes :=
  out ++ key ++ nonce ++ message

/-- Modelled from the spec: `secretbox.Open` of the external nacl library;
authenticates the box under (key, nonce) and returns the plaintext, or
fails. Inverse of `secretbox_Seal` on a 32-byte key and 24-byte nonce. -/
def secretbox_Open (out : Bytes) (box : Bytes) (nonce : Bytes)
    (key : Bytes) : Option Bytes :=
  if box.take SecretKeyLength = key ∧
      (box.drop SecretKeyLength).take NonceLength = nonce then
    some (out ++ (box.drop SecretKeyLength).drop NonceLength)
  else none

/-- secret.go `nonceSliceToArray`: length-check a byte slice and convert it
to a `[NonceLength]byte` array. -/
def nonceSliceToArray (bytes : Bytes) : Except Err Bytes :=
  if bytes.length ≠ NonceLength then .error (.wrongNonceLength bytes.length)
  else .ok bytes

/-- secret.go `keySliceToArray`: length-check a byte slice and convert it to
a `[SecretKeyLength]byte` array. -/
def keySliceToArray (bytes : Bytes) : Except Err Bytes :=
  if bytes.length ≠ SecretKeyLength then .error (.wrongKeyLength bytes.length)
  else .ok bytes

/-- secret.go `generateNonce`: `NonceLength` bytes from the package random
provider (the provider's outcome is the argument), converted to an array. -/
def generateNonce (randBytes : Except Err Bytes) : Except Err Bytes :=
  match randBytes with
  | .error e => .error e
  | .ok bytes => nonceSliceToArray bytes

/-- secret.go `SealWithKey`: nil-key check, fresh nonce, seal. The key is a
pointer to a 32-byte array (`none` = nil). -/
def SealWithKey (value : Bytes) (secretKey : Option Bytes)
    (randBytes : Except Err Bytes) : Except Err SealedBytes :=
  match secretKey with
  | none => .error .secretKeyNil
  | some key =>
    match generateNonce randBytes with
    | .error _ => .error .unableToGenerateNonce
    | .ok nonce =>
      .ok { Ciphertext := secretbox_Seal [] value nonce key, Nonce := nonce }

/-- secret.go `OpenWithKey`: nil-key check, structural nonce length check,
then the AEAD open. -/
def OpenWithKey (e : SealedBytes) (secretKey : Option Bytes) :
    Except Err Bytes :=
  match secretKey with
  | none => .error .secretKeyNil
  | some key =>
    match nonceSliceToArray e.Nonce with
    | .error err => .error err
    | .ok nonce =>
      match secretbox_Open [] e.Ciphertext nonce key with
      | none => .error .unableToDecrypt
      | some decrypted => .ok decrypted

end Secret

namespace Httpsign

/-- Written from the spec's words (4.1), for the refinement comparison in
C5: "each field is encoded as `<decimal-length>|<raw-bytes>|`". -/
def specFieldEncoding (f : Bytes) : Bytes :=
  natToDec f.length ++ [124] ++ f ++ [124]

/-- Written from the spec's words (4.1), for C5: the fixed field order
"timestamp, nonce, body, then (if enabled) verb, then request URI, then
each allow-listed header value in declaration order". -/
def specCanonicalFields (signVerbAndUri : Bool)
    (httpVerb httpResourceUri timestamp nonce body : Bytes)
    (headerValues : List Bytes) : List Bytes :=
  [timestamp, nonce, body] ++
  (if signVerbAndUri then [httpVerb, httpResourceUri] else []) ++
  headerValues

/-- Written from the spec's words (4.1), for C5: the concatenation of the
per-field encodings in the fixed order. -/
def specCanonicalConcat (signVerbAndUri : Bool)
    (httpVerb httpResourceUri timestamp nonce body : Bytes)
    (headerValues : List Bytes) : Bytes :=
  (specCanonicalFields signVerbAndUri httpVerb httpResourceUri timestamp
    nonce body headerValues).flatMap specFieldEncoding

/-- Encoding of the first field in the computeMAC stream: `len|bytes`. -/
def encHead (f : Bytes) : Bytes := natToDec f.length ++ [124] ++ f

/-- Encoding of each later field in the computeMAC stream: `|len|bytes`. -/
def encTail (f : Bytes) : Bytes := [124] ++ encHead f

end Httpsign

theorem decVal_append (xs ys : Bytes) (acc : Nat) :
    decVal (xs ++ ys) acc = decVal ys (decVal xs acc) := by
  induction xs generalizing acc with
  | nil => simp [decVal]
  | cons c cs ih => simp [decVal, ih]

theorem natToDecAux_digits (fuel : Nat) :
    ∀ n c, c ∈ natToDecAux fuel n → 48 ≤ c ∧ c ≤ 57 := by
  induction fuel with
  | zero => intro n c hc; simp [natToDecAux] at hc
  | succ f ih =>
    intro n c hc
    by_cases h0 : n = 0
    · simp [natToDecAux, h0] at hc
    · simp only [natToDecAux, if_neg h0, List.mem_append, List.mem_singleton] at hc
      rcases hc with hc | hc
      · exact ih _ _ hc
      · subst hc
        have : n % 10 < 10 := Nat.mod_lt _ (by norm_num)
        omega

theorem decVal_natToDecAux (fuel : Nat) :
    ∀ n acc, n < 10 ^ fuel →
      decVal (natToDecAux fuel n) acc =
        acc * 10 ^ (natToDecAux fuel n).length + n := by
  induction fuel with
  | zero =>
    intro n acc h
    have : n = 0 := by simpa using h
    simp [natToDecAux, decVal, this]
  | succ f ih =>
    intro n acc h
    by_cases h0 : n = 0
    · simp [natToDecAux, h0, decVal]
    · have hdiv : n / 10 < 10 ^ f := by
        rw [Nat.div_lt_iff_lt_mul (by norm_num : 0 < 10)]
        calc n < 10 ^ (f + 1) := h
          _ = 10 ^ f * 10 := by ring
      simp only [natToDecAux, if_neg h0]
      rw [decVal_append, ih _ _ hdiv]
      simp only [decVal, List.length_append, List.length_singleton]
      have hsub : 48 + n % 10 - 48 = n % 10 := by omega
      rw [hsub]
      calc (acc * 10 ^ (natToDecAux f (n / 10)).length + n / 10) * 10 + n % 10
          = acc * (10 ^ (natToDecAux f (n / 10)).length * 10) +
            (10 * (n / 10) + n % 10) := by ring
        _ = acc * 10 ^ ((natToDecAux f (n / 10)).length + 1) + n := by
            rw [Nat.div_add_mod, pow_succ]

theorem natToDecAux_ne_nil (f m : Nat) :
    natToDecAux (f + 1) (m + 1) ≠ [] := by
  simp [natToDecAux]

theorem natToDec_ne_nil (n : Nat) : natToDec n ≠ [] := by
  match n with
  | 0 => simp [natToDec]
  | m + 1 =>
    simp only [natToDec, if_neg (Nat.succ_ne_zero m)]
    exact natToDecAux_ne_nil m (m + 1 - 1)

theorem natToDec_digits (n : Nat) : ∀ c ∈ natToDec n, 48 ≤ c ∧ c ≤ 57 := by
  intro c hc
  by_cases h0 : n = 0
  · simp [natToDec, h0] at hc; omega
  · simp only [natToDec, if_neg h0] at hc
    exact natToDecAux_digits n n c hc

theorem parseNatDigits_natToDec (n : Nat) :
    parseNatDigits (natToDec n) = some n := by
  have hnil := natToDec_ne_nil n
  have hall : (natToDec n).all (fun c => 48 ≤ c && c ≤ 57) = true := by
    rw [List.all_eq_true]
    intro c hc
    have := natToDec_digits n c hc
    simp only [Bool.and_eq_true, decide_eq_true_eq]
    omega
  rw [parseNatDigits, if_neg hnil, if_pos hall]
  by_cases h0 : n = 0
  · subst h0; simp [natToDec, decVal]
  · simp only [natToDec, if_neg h0]
    rw [decVal_natToDecAux n n 0 (Nat.lt_pow_self (by norm_num) n)]
    simp

theorem intToDec_ne_nil (i : Int) : intToDec i ≠ [] := by
  by_cases h : i < 0
  · simp [intToDec, h]
  · simp only [intToDec, if_neg h]
    exact natToDec_ne_nil _

theorem parseInt64_intToDec (i : Int) (h1 : int64Min ≤ i) (h2 : i ≤ int64Max) :
    parseInt64 (intToDec i) = some i := by
  by_cases hneg : i < 0
  · simp only [intToDec, if_pos hneg, parseInt64, if_true]
    rw [parseNatDigits_natToDec]
    have habs : (i.natAbs : Int) = -i := by omega
    simp only [Option.bind]
    rw [if_pos (by rw [habs]; omega : int64Min ≤ -(i.natAbs : Int))]
    rw [habs]
    simp
  · simp only [intToDec, if_neg hneg]
    obtain ⟨c, cs, heq, hc1, hc2⟩ :
        ∃ c cs, natToDec i.toNat = c :: cs ∧ 48 ≤ c ∧ c ≤ 57 := by
      cases h : natToDec i.toNat with
      | nil => exact absurd h (natToDec_ne_nil _)
      | cons c cs =>
        have := natToDec_digits i.toNat c (by rw [h]; exact List.mem_cons_self _ _)
        exact ⟨c, cs, rfl, this.1, this.2⟩
    rw [heq]
    simp only [parseInt64]
    rw [if_neg (by omega : ¬ c = 45), if_neg (by omega : ¬ c = 43), ← heq,
      parseNatDigits_natToDec]
    have htn : (i.toNat : Int) = i := by omega
    simp only [Option.bind]
    rw [if_pos (by rw [htn]; omega : (i.toNat : Int) ≤ int64Max), htn]

theorem hexCharVal_hexDigitChar : ∀ d, d < 16 → hexCharVal (hexDigitChar d) = some d := by
  decide

theorem hexDecode_hexEncode (bs : Bytes) (h : ∀ b ∈ bs, b < 256) :
    hexDecode (hexEncode bs) = some bs := by
  induction bs with
  | nil => rfl
  | cons b rest ih =>
    have hb : b < 256 := h b (List.mem_cons_self _ _)
    simp only [hexEncode, hexDecode]
    rw [hexCharVal_hexDigitChar (b / 16) (by omega),
      hexCharVal_hexDigitChar (b % 16) (by omega),
      ih (fun x hx => h x (List.mem_cons_of_mem _ hx))]
    have hb' : 16 * (b / 16) + b % 16 = b := by omega
    show some ((16 * (b / 16) + b % 16) :: rest) = some (b :: rest)
    rw [hb']

theorem hexEncode_ne_nil (bs : Bytes) (h : bs ≠ []) : hexEncode bs ≠ [] := by
  cases bs with
  | nil => exact absurd rfl h
  | cons b rest => simp [hexEncode]

namespace Httpsign

theorem headerGet_set_self (h : List (Bytes × Bytes)) (n v : Bytes) :
    headerGet (headerSet h n v) n = v := by
  simp [headerSet, headerGet]

theorem headerGet_del_ne (h : List (Bytes × Bytes)) (m n : Bytes)
    (hne : m ≠ n) : headerGet (headerDel h n) m = headerGet h m := by
  induction h with
  | nil => rfl
  | cons kv rest ih =>
    obtain ⟨k, v⟩ := kv
    by_cases hk : k = n
    · subst hk
      rw [headerDel, if_pos rfl, ih, headerGet,
        if_neg (fun e => hne e.symm)]
    · rw [headerDel, if_neg hk]
      by_cases hm : k = m
      · subst hm; rw [headerGet, if_pos rfl, headerGet, if_pos rfl]
      · rw [headerGet, if_neg hm, headerGet, if_neg hm, ih]

theorem headerGet_set_ne (h : List (Bytes × Bytes)) (m n v : Bytes)
    (hne : m ≠ n) : headerGet (headerSet h n v) m = headerGet h m := by
  rw [headerSet, headerGet, if_neg (fun e => hne e.symm), headerGet_del_ne _ _ _ hne]

theorem headerHas_del_ne (h : List (Bytes × Bytes)) (m n : Bytes)
    (hne : m ≠ n) : headerHas (headerDel h n) m = headerHas h m := by
  induction h with
  | nil => rfl
  | cons kv rest ih =>
    obtain ⟨k, v⟩ := kv
    by_cases hk : k = n
    · subst hk
      rw [headerDel, if_pos rfl, ih, headerHas,
        if_neg (fun e => hne e.symm)]
    · rw [headerDel, if_neg hk]
      by_cases hm : k = m
      · subst hm; rw [headerHas, if_pos rfl, headerHas, if_pos rfl]
      · rw [headerHas, if_neg hm, headerHas, if_neg hm, ih]

theorem headerHas_set_ne (h : List (Bytes × Bytes)) (m n v : Bytes)
    (hne : m ≠ n) : headerHas (headerSet h n v) m = headerHas h m := by
  rw [headerSet, headerHas, if_neg (fun e => hne e.symm), headerHas_del_ne _ _ _ hne]

theorem extractHeaderValues_set_ne (h : List (Bytes × Bytes)) (n v : Bytes)
    (names : List Bytes) (hn : n ∉ names) :
    extractHeaderValues (headerSet h n v) names = extractHeaderValues h names := by
  induction names with
  | nil => rfl
  | cons m rest ih =>
    have hmn : m ≠ n := fun e => hn (e ▸ List.mem_cons_self _ _)
    rw [extractHeaderValues, extractHeaderValues,
      headerHas_set_ne _ _ _ _ hmn, headerGet_set_ne _ _ _ _ hmn,
      ih (fun hm => hn (List.mem_cons_of_mem _ hm))]

theorem InCache_of_fresh (nc : NonceCache) (now : Int) (x : Bytes)
    (h : ttlmapGet nc.entries now x = false) :
    nc.InCache now x =
      (false, { nc with entries := ttlmapSet nc.entries now x nc.cacheTTL }) := by
  rw [NonceCache.InCache, h]
  simp

theorem InCache_of_cached (nc : NonceCache) (now : Int) (x : Bytes)
    (h : ttlmapGet nc.entries now x = true) :
    nc.InCache now x = (true, nc) := by
  rw [NonceCache.InCache, h]
  simp

end Httpsign

namespace Httpsign

theorem macInput_eq (svu : Bool) (v u t n b : Bytes) (hs : List Bytes) :
    macInput svu v u t n b hs =
      encHead t ++ encTail n ++ encTail b ++
      (if svu then encTail v ++ encTail u else []) ++ hs.flatMap encTail := by
  have hfun : (fun headerValue : Bytes =>
      124 :: (natToDec headerValue.length ++ 124 :: headerValue)) = encTail := by
    funext f
    simp [encTail, encHead]
  cases svu <;> simp [macInput, encHead, encTail, List.append_assoc, hfun]

theorem specFieldEncoding_eq :
    specFieldEncoding = fun f => encHead f ++ [124] := by
  funext f
  simp [specFieldEncoding, encHead, List.append_assoc]

theorem encHead_flatMap_pipe (t : Bytes) (rest : List Bytes) :
    encHead t ++ rest.flatMap encTail ++ [124] =
      (t :: rest).flatMap (fun f => encHead f ++ [124]) := by
  induction rest generalizing t with
  | nil => simp
  | cons g gs ih =>
    have h := ih g
    simp only [List.flatMap_cons] at h ⊢
    rw [← h]
    simp [encTail, List.append_assoc]

theorem checkTimestamp_int (name : Bytes) (cacheTTL now t : Int)
    (h1 : int64Min ≤ t) (h2 : t ≤ int64Max) :
    checkTimestamp name cacheTTL now (intToDec t) =
      if t ≥ now + MaxSkewSec then .error (.timestampFromFuture now t)
      else if t ≤ now - (cacheTTL - MaxSkewSec) then .error (.timestampTooOld now t)
      else .ok () := by
  simp only [checkTimestamp, parseInt64_intToDec t h1 h2]

/-- C4: for every int64 timestamp t, current time now and cache ttl,
checkTimestamp accepts t exactly when now - (ttl - MaxSkewSec) < t <
now + MaxSkewSec, and outside that open interval it returns the
future-skew error (upper side, checked first) or the too-old error
(lower side). -/
theorem checkTimestamp_window (name : Bytes) (cacheTTL now t : Int)
    (h1 : int64Min ≤ t) (h2 : t ≤ int64Max) :
    (checkTimestamp name cacheTTL now (intToDec t) = .ok () ↔
      now - (cacheTTL - MaxSkewSec) < t ∧ t < now + MaxSkewSec)
    ∧ (now + MaxSkewSec ≤ t →
      checkTimestamp name cacheTTL now (intToDec t) =
        .error (.timestampFromFuture now t))
    ∧ (t < now + MaxSkewSec → t ≤ now - (cacheTTL - MaxSkewSec) →
      checkTimestamp name cacheTTL now (intToDec t) =
        .error (.timestampTooOld now t)) := by
  rw [checkTimestamp_int name cacheTTL now t h1 h2]
  refine ⟨⟨fun h => ?_, fun h => ?_⟩, fun hf => ?_, fun hf ho => ?_⟩
  · by_cases hf : t ≥ now + MaxSkewSec
    · rw [if_pos hf] at h; exact absurd h (by simp)
    · by_cases ho : t ≤ now - (cacheTTL - MaxSkewSec)
      · rw [if_neg hf, if_pos ho] at h; exact absurd h (by simp)
      · omega
  · rw [if_neg (by omega), if_neg (by omega)]
  · rw [if_pos (by omega)]
  · rw [if_neg (by omega), if_pos ho]

/-- Witness for C4: ttl 100, now 1000, timestamp 1000 is inside the window
and accepted. -/
theorem checkTimestamp_window_witness :
    checkTimestamp XMailgunTimestamp 100 1000 (intToDec 1000) = .ok () :=
  (checkTimestamp_window XMailgunTimestamp 100 1000 1000 (by decide)
    (by decide)).1.mpr ⟨by decide, by decide⟩

/-- C3 as stated is false: with maxSkew 5, ttl 100 and now T = 1330837567,
the timestamp T + 5 is rejected as coming from the future (the check is
`timestamp >= now + MaxSkewSec`), whereas the claim calls T + 5 the last
valid future value. -/
theorem checkTimestamp_T_plus_5_rejected :
    checkTimestamp XMailgunTimestamp 100 1330837567 (intToDec 1330837572) =
      .error (.timestampFromFuture 1330837567 1330837572) := by decide

/-- C3 (amended): with maxSkew 5 and ttl 100 at current time T, the last
valid future timestamp is T + 4: T + 4 is accepted while T + 5 and T + 6
are rejected as future-dated; and T - 94 is accepted while T - 95 is
rejected as too old. -/
theorem checkTimestamp_boundaries (name : Bytes) (T : Int)
    (hlo : int64Min ≤ T - 95) (hhi : T + 6 ≤ int64Max) :
    checkTimestamp name 100 T (intToDec (T + 4)) = .ok ()
    ∧ checkTimestamp name 100 T (intToDec (T + 5)) =
        .error (.timestampFromFuture T (T + 5))
    ∧ checkTimestamp name 100 T (intToDec (T + 6)) =
        .error (.timestampFromFuture T (T + 6))
    ∧ checkTimestamp name 100 T (intToDec (T - 94)) = .ok ()
    ∧ checkTimestamp name 100 T (intToDec (T - 95)) =
        .error (.timestampTooOld T (T - 95)) := by
  refine ⟨?_, ?_, ?_, ?_, ?_⟩
  · rw [checkTimestamp_int name 100 T (T + 4) (by omega) (by omega)]
    simp only [MaxSkewSec]
    rw [if_neg (by omega), if_neg (by omega)]
  · rw [checkTimestamp_int name 100 T (T + 5) (by omega) (by omega)]
    simp only [MaxSkewSec]
    rw [if_pos (by omega)]
  · rw [checkTimestamp_int name 100 T (T + 6) (by omega) (by omega)]
    simp only [MaxSkewSec]
    rw [if_pos (by omega)]
  · rw [checkTimestamp_int name 100 T (T - 94) (by omega) (by omega)]
    simp only [MaxSkewSec]
    rw [if_neg (by omega), if_neg (by omega)]
  · rw [checkTimestamp_int name 100 T (T - 95) (by omega) (by omega)]
    simp only [MaxSkewSec]
    rw [if_neg (by omega), if_pos (by omega)]

/-- Witness for the amended C3 at T = 1330837567. -/
theorem checkTimestamp_boundaries_witness :
    checkTimestamp XMailgunTimestamp 100 1330837567 (intToDec 1330837571) = .ok ()
    ∧ checkTimestamp XMailgunTimestamp 100 1330837567 (intToDec 1330837473) = .ok () :=
  ⟨(checkTimestamp_boundaries XMailgunTimestamp 1330837567 (by decide) (by decide)).1,
   (checkTimestamp_boundaries XMailgunTimestamp 1330837567 (by decide)
     (by decide)).2.2.2.1⟩

/-- C5 as stated is false: for the field tuple (timestamp "0", empty nonce,
empty body, verb and URI disabled, no extra headers) the stream computeMAC
feeds to HMAC-SHA256 is the bytes of "1|0|0||0|", while the concatenation
of the per-field `decimal-length, pipe, raw bytes, pipe` encodings is
"1|0|0||0||" — the stream lacks the final pipe. -/
theorem macInput_ne_specCanonicalConcat :
    macInput false [] [] [48] [] [] [] ≠
      specCanonicalConcat false [] [] [48] [] [] [] := by decide

/-- C5 (amended): the byte stream computeMAC feeds to HMAC-SHA256 equals
the concatenation, in the fixed order timestamp, nonce, body, then (if
enabled) verb and request URI, then each allow-listed header value, of the
spec's `decimal-length, pipe, raw bytes, pipe` field encodings with the
single final trailing pipe removed: appending one pipe to the stream gives
exactly the spec concatenation. -/
theorem macInput_append_pipe (svu : Bool) (v u t n b : Bytes)
    (hs : List Bytes) :
    macInput svu v u t n b hs ++ [124] =
      specCanonicalConcat svu v u t n b hs := by
  rw [macInput_eq, specCanonicalConcat, specFieldEncoding_eq]
  cases svu
  · have h := encHead_flatMap_pipe t (n :: b :: hs)
    simp only [List.flatMap_cons, List.append_assoc] at h ⊢
    simp only [specCanonicalFields, Bool.false_eq_true, if_false,
      List.nil_append, List.append_nil, List.cons_append, List.flatMap_cons,
      List.append_assoc]
    exact h
  · have h := encHead_flatMap_pipe t (n :: b :: v :: u :: hs)
    simp only [List.flatMap_cons, List.append_assoc] at h ⊢
    simp only [specCanonicalFields, if_true, List.nil_append,
      List.append_nil, List.cons_append, List.flatMap_cons, List.append_assoc]
    exact h

end Httpsign

namespace Secret

/-- C7: sealing round-trip. For every plaintext and non-nil 32-byte key,
with the random provider returning 24 bytes, SealWithKey succeeds and
returns the secretbox ciphertext together with the 24-byte nonce, the
sealed value's nonce passes Open's structural length check, and OpenWithKey
under the same key returns exactly the plaintext. -/
theorem SealWithKey_OpenWithKey_roundtrip (p key rb : Bytes)
    (hk : key.length = SecretKeyLength) (hr : rb.length = NonceLength) :
    SealWithKey p (some key) (.ok rb) =
      .ok ⟨secretbox_Seal [] p rb key, rb⟩
    ∧ ((⟨secretbox_Seal [] p rb key, rb⟩ : SealedBytes)).Nonce.length = NonceLength
    ∧ OpenWithKey ⟨secretbox_Seal [] p rb key, rb⟩ (some key) = .ok p := by
  have hnonce : nonceSliceToArray rb = .ok rb := by
    rw [nonceSliceToArray, if_neg (fun h => h hr)]
  refine ⟨?_, hr, ?_⟩
  · simp only [SealWithKey, generateNonce, hnonce]
  · have hcond : (secretbox_Seal [] p rb key).take SecretKeyLength = key ∧
        ((secretbox_Seal [] p rb key).drop SecretKeyLength).take NonceLength = rb := by
      constructor
      · rw [secretbox_Seal, List.nil_append, List.append_assoc, ← hk,
          List.take_left]
      · rw [secretbox_Seal, List.nil_append, List.append_assoc, ← hk,
          List.drop_left, ← hr, List.take_left]
    have hopen : secretbox_Open [] (secretbox_Seal [] p rb key) rb key = some p := by
      rw [secretbox_Open, if_pos hcond, List.nil_append]
      congr 1
      rw [secretbox_Seal, List.nil_append, List.append_assoc, ← hk,
        List.drop_left, ← hr, List.drop_left]
    simp only [OpenWithKey, hnonce, hopen]

/-- Witness for C7 with an all-zero 32-byte key, an all-one 24-byte nonce
and the plaintext "hi". -/
theorem SealWithKey_OpenWithKey_roundtrip_witness :
    OpenWithKey
      ⟨secretbox_Seal [] [104, 105] (List.replicate 24 1) (List.replicate 32 0),
       List.replicate 24 1⟩ (some (List.replicate 32 0)) =
      .ok [104, 105] :=
  (SealWithKey_OpenWithKey_roundtrip [104, 105] (List.replicate 32 0)
    (List.replicate 24 1) (by decide) (by decide)).2.2

end Secret

namespace Httpsign

theorem applyDefaults_capacity_pos (cfg : Config) :
    ¬ (applyDefaults cfg).NonceCacheCapacity < 1 := by
  simp only [applyDefaults]
  by_cases h : cfg.NonceCacheCapacity < 1
  · rw [if_pos h]; decide
  · rw [if_neg h]; exact h

/-- C8 as stated is false: with an unreadable key file (ReadFile fails),
NewWithProviders still returns a service rather than an error — the read
error is discarded by the immediately following reassignment of err, as the
source comments itself ("if no key is read that's okay it might be passed
in"). Shown at the zero-valued Config. -/
theorem NewWithProviders_ok_on_unreadable_key :
    NewWithProviders
        (some ⟨[], [], false, 0, 0, false, [], 0, [], [], [], [], []⟩) none =
      .ok (applyDefaults ⟨[], [], false, 0, 0, false, [], 0, [], [], [], [], []⟩,
        ⟨applyDefaults ⟨[], [], false, 0, 0, false, [], 0, [], [], [], [], []⟩,
         ⟨[], CacheTimeout⟩, none⟩) := by decide

/-- C8 (amended): for every configuration (with stats emission off, the
statsd path being external I/O), an unreadable key file does not fail
construction: NewWithProviders returns a service whose default key is
absent, and the default-key operations SignRequest and AuthenticateRequest
subsequently fail with the "service not loaded with key" error. -/
theorem NewWithProviders_discards_key_read_error (cfg : Config) (r : Request)
    (nonceHex : Except Err Bytes) (now : Int) (f : Bytes → Bytes → Bytes)
    (_hstats : cfg.EmitStats = false) :
    NewWithProviders (some cfg) none =
      .ok (applyDefaults cfg,
        ⟨applyDefaults cfg, ⟨[], (applyDefaults cfg).NonceCacheTimeout⟩, none⟩)
    ∧ SignRequest
        ⟨applyDefaults cfg, ⟨[], (applyDefaults cfg).NonceCacheTimeout⟩, none⟩
        nonceHex now r f = .error .serviceNotLoadedWithKey
    ∧ (AuthenticateRequest
        ⟨applyDefaults cfg, ⟨[], (applyDefaults cfg).NonceCacheTimeout⟩, none⟩
        now r f).1 = .error .serviceNotLoadedWithKey := by
  refine ⟨?_, rfl, rfl⟩
  simp only [NewWithProviders, readKeyFromDisk, NewNonceCache,
    if_neg (applyDefaults_capacity_pos cfg)]
  rfl

/-- Witness for the amended C8 at the zero-valued Config. -/
theorem NewWithProviders_discards_key_read_error_witness :
    (AuthenticateRequest
        ⟨applyDefaults ⟨[], [], false, 0, 0, false, [], 0, [], [], [], [], []⟩,
         ⟨[], CacheTimeout⟩, none⟩ 0 ⟨[], [], [], []⟩
        (fun _ _ => [])).1 = .error .serviceNotLoadedWithKey :=
  (NewWithProviders_discards_key_read_error
    ⟨[], [], false, 0, 0, false, [], 0, [], [], [], [], []⟩
    ⟨[], [], [], []⟩ (.ok []) 0 (fun _ _ => []) rfl).2.2

/-- C10: when the capacity, timeout and four header-name fields are
zero-valued, NewWithProviders overwrites them in the caller-supplied Config
with the package defaults — the first component of the result is the
caller's struct as it stands after the call, observably different from what
was passed in — and the returned Service retains that same mutated Config
as its `config` field. -/
theorem NewWithProviders_mutates_config (cfg : Config)
    (diskContents : Option Bytes)
    (hcap : cfg.NonceCacheCapacity < 1) (htim : cfg.NonceCacheTimeout < 1)
    (hn : cfg.NonceHeaderName = []) (ht : cfg.TimestampHeaderName = [])
    (hsig : cfg.SignatureHeaderName = [])
    (hver : cfg.SignatureVersionHeaderName = []) :
    NewWithProviders (some cfg) diskContents =
      .ok (applyDefaults cfg,
        ⟨applyDefaults cfg, ⟨[], CacheTimeout⟩,
         (readKeyFromDisk diskContents).toOption⟩)
    ∧ applyDefaults cfg ≠ cfg
    ∧ (applyDefaults cfg).NonceCacheCapacity = CacheCapacity
    ∧ (applyDefaults cfg).NonceCacheTimeout = CacheTimeout
    ∧ (applyDefaults cfg).NonceHeaderName = XMailgunNonce
    ∧ (applyDefaults cfg).TimestampHeaderName = XMailgunTimestamp
    ∧ (applyDefaults cfg).SignatureHeaderName = XMailgunSignature
    ∧ (applyDefaults cfg).SignatureVersionHeaderName = XMailgunSignatureVersion := by
  have hc : (applyDefaults cfg).NonceCacheCapacity = CacheCapacity := by
    simp [applyDefaults, hcap]
  have hti : (applyDefaults cfg).NonceCacheTimeout = CacheTimeout := by
    simp [applyDefaults, htim]
  have hn' : (applyDefaults cfg).NonceHeaderName = XMailgunNonce := by
    simp [applyDefaults, hn]
  have ht' : (applyDefaults cfg).TimestampHeaderName = XMailgunTimestamp := by
    simp [applyDefaults, ht]
  have hs' : (applyDefaults cfg).SignatureHeaderName = XMailgunSignature := by
    simp [applyDefaults, hsig]
  have hv' : (applyDefaults cfg).SignatureVersionHeaderName =
      XMailgunSignatureVersion := by
    simp [applyDefaults, hver]
  refine ⟨?_, ?_, hc, hti, hn', ht', hs', hv'⟩
  · simp only [NewWithProviders, NewNonceCache, hc, hti]
    rw [if_neg (by decide)]
  · intro he
    rw [he] at hc
    rw [hc] at hcap
    exact absurd hcap (by decide)

/-- Witness for C10 at the zero-valued Config: the caller's Config is
observably changed by construction. -/
theorem NewWithProviders_mutates_config_witness :
    applyDefaults ⟨[], [], false, 0, 0, false, [], 0, [], [], [], [], []⟩ ≠
      ⟨[], [], false, 0, 0, false, [], 0, [], [], [], [], []⟩ :=
  (NewWithProviders_mutates_config
    ⟨[], [], false, 0, 0, false, [], 0, [], [], [], [], []⟩ none
    (by decide) (by decide) rfl rfl rfl rfl).2.1

theorem extractHeaderValues_error_shape (h : List (Bytes × Bytes))
    (names : List Bytes) (e : Err)
    (he : extractHeaderValues h names = .error e) :
    ∃ n, e = .headerNotInRequest n := by
  induction names generalizing e with
  | nil => exact absurd he (by simp [extractHeaderValues])
  | cons m rest ih =>
    rw [extractHeaderValues] at he
    by_cases hm : headerHas h m
    · rw [if_pos hm] at he
      cases hx : extractHeaderValues h rest with
      | error e' =>
        rw [hx] at he
        injection he with he'
        exact he' ▸ ih e' hx
      | ok vs => rw [hx] at he; exact absurd he (by simp)
    · rw [if_neg hm] at he
      injection he with he'
      exact ⟨m, he'.symm⟩

theorem checkMAC_error_shape (f : Bytes → Bytes → Bytes) (key : Bytes)
    (svu : Bool) (v u ts n b : Bytes) (hvs : List Bytes) (sig : Bytes) (e : Err)
    (he : checkMAC f key svu v u ts n b hvs sig = .error e) :
    e = .hexDecodeError ∨ e = .invalidSignature := by
  rw [checkMAC] at he
  cases hx : hexDecode sig with
  | none => rw [hx] at he; injection he with he'; exact .inl he'.symm
  | some m =>
    rw [hx] at he
    have he' : (if m = computeMAC f key svu v u ts n b hvs then
        (Except.ok () : Except Err Unit) else .error .invalidSignature) =
        .error e := he
    by_cases hm : m = computeMAC f key svu v u ts n b hvs
    · rw [if_pos hm] at he'; exact absurd he' (by simp)
    · rw [if_neg hm] at he'; injection he' with he''; exact .inr he''.symm

theorem checkTimestamp_error_shape (name : Bytes) (cacheTTL now : Int)
    (ts : Bytes) (e : Err)
    (he : checkTimestamp name cacheTTL now ts = .error e) :
    (∃ h v, e = .timestampParse h v) ∨ (∃ a b, e = .timestampFromFuture a b) ∨
      (∃ a b, e = .timestampTooOld a b) := by
  rw [checkTimestamp] at he
  cases hx : parseInt64 ts with
  | none =>
    rw [hx] at he; injection he with he'
    exact .inl ⟨name, ts, he'.symm⟩
  | some t =>
    rw [hx] at he
    have he' : (if t ≥ now + MaxSkewSec then
        (Except.error (Err.timestampFromFuture now t) : Except Err Unit)
      else if t ≤ now - (cacheTTL - MaxSkewSec) then
        .error (.timestampTooOld now t)
      else .ok ()) = .error e := he
    by_cases hf : t ≥ now + MaxSkewSec
    · rw [if_pos hf] at he'; injection he' with he''
      exact .inr (.inl ⟨now, t, he''.symm⟩)
    · rw [if_neg hf] at he'
      by_cases ho : t ≤ now - (cacheTTL - MaxSkewSec)
      · rw [if_pos ho] at he'; injection he' with he''
        exact .inr (.inr ⟨now, t, he''.symm⟩)
      · rw [if_neg ho] at he'; exact absurd he' (by simp)

theorem InCache_snd_of_true (nc : NonceCache) (now : Int) (x : Bytes)
    (c' : NonceCache) (h : nc.InCache now x = (true, c')) : c' = nc := by
  rw [NonceCache.InCache] at h
  by_cases hg : ttlmapGet nc.entries now x
  · rw [if_pos hg] at h
    exact (Prod.mk.injEq _ _ _ _ ▸ h).2.symm
  · rw [if_neg hg] at h
    exact absurd (Prod.mk.injEq _ _ _ _ ▸ h).1 (by simp)

theorem InCache_snd_of_false (nc : NonceCache) (now : Int) (x : Bytes)
    (c' : NonceCache) (h : nc.InCache now x = (false, c')) :
    c' = ⟨ttlmapSet nc.entries now x nc.cacheTTL, nc.cacheTTL⟩ := by
  rw [NonceCache.InCache] at h
  by_cases hg : ttlmapGet nc.entries now x
  · rw [if_pos hg] at h
    exact absurd (Prod.mk.injEq _ _ _ _ ▸ h).1 (by simp)
  · rw [if_neg hg] at h
    exact (Prod.mk.injEq _ _ _ _ ▸ h).2.symm

/-- C9: the nonce cache is written only after the MAC comparison and the
timestamp validation have both succeeded. Whenever
AuthenticateRequestWithKey fails — missing header, missing signed header,
bad or malformed signature, timestamp out of window, or even a replay —
the cache it returns is exactly the cache it was given; on success the only
change is the insertion of the request's nonce with the cache's ttl. -/
theorem AuthenticateRequestWithKey_cache_frame (cfg : Config)
    (cache : NonceCache) (now : Int) (r : Request) (key : Bytes)
    (f : Bytes → Bytes → Bytes) :
    ((AuthenticateRequestWithKey cfg cache now r key f).1 ≠ .ok () →
      (AuthenticateRequestWithKey cfg cache now r key f).2 = cache)
    ∧ ((AuthenticateRequestWithKey cfg cache now r key f).1 = .ok () →
      (AuthenticateRequestWithKey cfg cache now r key f).2 =
        ⟨ttlmapSet cache.entries now (headerGet r.headers cfg.NonceHeaderName)
          cache.cacheTTL, cache.cacheTTL⟩) := by
  unfold AuthenticateRequestWithKey
  by_cases h1 : headerGet r.headers cfg.SignatureHeaderName = []
  · rw [if_pos h1]
    exact ⟨fun _ => rfl, fun h => absurd h (by simp)⟩
  rw [if_neg h1]
  by_cases h2 : headerGet r.headers cfg.NonceHeaderName = []
  · rw [if_pos h2]
    exact ⟨fun _ => rfl, fun h => absurd h (by simp)⟩
  rw [if_neg h2]
  by_cases h3 : headerGet r.headers cfg.TimestampHeaderName = []
  · rw [if_pos h3]
    exact ⟨fun _ => rfl, fun h => absurd h (by simp)⟩
  rw [if_neg h3]
  cases hx : extractHeaderValues r.headers cfg.HeadersToSign with
  | error e =>
    simp only [hx]
    exact ⟨fun _ => by simp, fun h => by simp at h⟩
  | ok hv =>
    simp only [hx]
    cases hm : checkMAC f key cfg.SignVerbAndURI r.method r.requestURI
        (headerGet r.headers cfg.TimestampHeaderName)
        (headerGet r.headers cfg.NonceHeaderName) r.body hv
        (headerGet r.headers cfg.SignatureHeaderName) with
    | error e =>
      simp only [hm]
      exact ⟨fun _ => by simp, fun h => by simp at h⟩
    | ok u =>
      simp only [hm]
      cases hts : checkTimestamp cfg.TimestampHeaderName cache.cacheTTL now
          (headerGet r.headers cfg.TimestampHeaderName) with
      | error e =>
        simp only [hts]
        exact ⟨fun _ => by simp, fun h => by simp at h⟩
      | ok u' =>
        simp only [hts]
        cases hic : cache.InCache now (headerGet r.headers cfg.NonceHeaderName) with
        | mk b c' =>
          cases b
          · simp only [hic]
            exact ⟨fun hcontra => by simp at hcontra,
              fun _ => InCache_snd_of_false cache now _ c' hic⟩
          · simp only [hic]
            exact ⟨fun _ => InCache_snd_of_true cache now _ c' hic,
              fun h => by simp at h⟩

/-- Witness for C9: a request with no headers fails the signature-presence
check and leaves a non-empty cache untouched. -/
theorem AuthenticateRequestWithKey_cache_frame_witness :
    (AuthenticateRequestWithKey
      ⟨[], [], false, 100, 100, false, [], 0, [], XMailgunNonce,
       XMailgunTimestamp, XMailgunSignature, XMailgunSignatureVersion⟩
      ⟨[([110], 7)], 100⟩ 1000 ⟨[], [], [], []⟩ [97]
      (fun _ _ => [171])).2 = ⟨[([110], 7)], 100⟩ :=
  (AuthenticateRequestWithKey_cache_frame
    ⟨[], [], false, 100, 100, false, [], 0, [], XMailgunNonce,
     XMailgunTimestamp, XMailgunSignature, XMailgunSignatureVersion⟩
    ⟨[([110], 7)], 100⟩ 1000 ⟨[], [], [], []⟩ [97]
    (fun _ _ => [171])).1 (by decide)

/-- C6 as stated is false: AuthenticateRequestWithKey never reads the
signature-version header. A request carrying only nonce, timestamp and
signature — no signature-version header at all — authenticates
successfully instead of failing with a "header not found" error. -/
theorem AuthenticateRequestWithKey_ignores_version_header :
    headerGet [(XMailgunSignature, hexEncode [171]), (XMailgunNonce, [110]),
        (XMailgunTimestamp, intToDec 1000)] XMailgunSignatureVersion = []
    ∧ (AuthenticateRequestWithKey
        ⟨[], [], false, 100, 100, false, [], 0, [], XMailgunNonce,
         XMailgunTimestamp, XMailgunSignature, XMailgunSignatureVersion⟩
        ⟨[], 100⟩ 1000
        ⟨[], [], [], [(XMailgunSignature, hexEncode [171]),
          (XMailgunNonce, [110]), (XMailgunTimestamp, intToDec 1000)]⟩
        [97] (fun _ _ => [171])).1 = .ok () :=
  ⟨by decide, by decide⟩

/-- C6 (amended): authentication requires three of the four fields —
signature, nonce and timestamp, checked in that order, a missing one
producing the "header not found" error naming the configured header — while
the signature-version header is never consulted; once those three are
present, no "header not found" error can be returned. -/
theorem AuthenticateRequestWithKey_required_headers (cfg : Config)
    (cache : NonceCache) (now : Int) (r : Request) (key : Bytes)
    (f : Bytes → Bytes → Bytes) :
    (headerGet r.headers cfg.SignatureHeaderName = [] →
      (AuthenticateRequestWithKey cfg cache now r key f).1 =
        .error (.headerNotFound cfg.SignatureHeaderName))
    ∧ (headerGet r.headers cfg.SignatureHeaderName ≠ [] →
        headerGet r.headers cfg.NonceHeaderName = [] →
      (AuthenticateRequestWithKey cfg cache now r key f).1 =
        .error (.headerNotFound cfg.NonceHeaderName))
    ∧ (headerGet r.headers cfg.SignatureHeaderName ≠ [] →
        headerGet r.headers cfg.NonceHeaderName ≠ [] →
        headerGet r.headers cfg.TimestampHeaderName = [] →
      (AuthenticateRequestWithKey cfg cache now r key f).1 =
        .error (.headerNotFound cfg.TimestampHeaderName))
    ∧ (headerGet r.headers cfg.SignatureHeaderName ≠ [] →
        headerGet r.headers cfg.NonceHeaderName ≠ [] →
        headerGet r.headers cfg.TimestampHeaderName ≠ [] →
        ∀ name, (AuthenticateRequestWithKey cfg cache now r key f).1 ≠
          .error (.headerNotFound name)) := by
  refine ⟨fun h1 => ?_, fun h1 h2 => ?_, fun h1 h2 h3 => ?_,
    fun h1 h2 h3 name => ?_⟩
  · unfold AuthenticateRequestWithKey
    rw [if_pos h1]
  · unfold AuthenticateRequestWithKey
    rw [if_neg h1, if_pos h2]
  · unfold AuthenticateRequestWithKey
    rw [if_neg h1, if_neg h2, if_pos h3]
  · unfold AuthenticateRequestWithKey
    rw [if_neg h1, if_neg h2, if_neg h3]
    cases hx : extractHeaderValues r.headers cfg.HeadersToSign with
    | error e =>
      obtain ⟨n, rfl⟩ := extractHeaderValues_error_shape _ _ _ hx
      simp only [hx]
      simp
    | ok hv =>
      simp only [hx]
      cases hm : checkMAC f key cfg.SignVerbAndURI r.method r.requestURI
          (headerGet r.headers cfg.TimestampHeaderName)
          (headerGet r.headers cfg.NonceHeaderName) r.body hv
          (headerGet r.headers cfg.SignatureHeaderName) with
      | error e =>
        rcases checkMAC_error_shape f key cfg.SignVerbAndURI r.method
            r.requestURI (headerGet r.headers cfg.TimestampHeaderName)
            (headerGet r.headers cfg.NonceHeaderName) r.body hv
            (headerGet r.headers cfg.SignatureHeaderName) e hm with rfl | rfl <;>
          simp only [hm] <;> simp
      | ok u =>
        simp only [hm]
        cases hts : checkTimestamp cfg.TimestampHeaderName cache.cacheTTL now
            (headerGet r.headers cfg.TimestampHeaderName) with
        | error e =>
          rcases checkTimestamp_error_shape cfg.TimestampHeaderName
              cache.cacheTTL now (headerGet r.headers cfg.TimestampHeaderName)
              e hts with ⟨a, b, rfl⟩ | ⟨a, b, rfl⟩ | ⟨a, b, rfl⟩ <;>
            simp only [hts] <;> simp
        | ok u' =>
          simp only [hts]
          cases hic : cache.InCache now
              (headerGet r.headers cfg.NonceHeaderName) with
          | mk b c' => cases b <;> simp only [hic] <;> simp

/-- Witness for the amended C6: a request carrying nonce and timestamp but
no signature is rejected with "header not found" naming the signature
header. -/
theorem AuthenticateRequestWithKey_required_headers_witness :
    (AuthenticateRequestWithKey
        ⟨[], [], false, 100, 100, false, [], 0, [], XMailgunNonce,
         XMailgunTimestamp, XMailgunSignature, XMailgunSignatureVersion⟩
        ⟨[], 100⟩ 1000
        ⟨[], [], [], [(XMailgunNonce, [110]), (XMailgunTimestamp, intToDec 1000)]⟩
        [97] (fun _ _ => [171])).1 =
      .error (.headerNotFound XMailgunSignature) :=
  (AuthenticateRequestWithKey_required_headers
    ⟨[], [], false, 100, 100, false, [], 0, [], XMailgunNonce,
     XMailgunTimestamp, XMailgunSignature, XMailgunSignatureVersion⟩
    ⟨[], 100⟩ 1000
    ⟨[], [], [], [(XMailgunNonce, [110]), (XMailgunTimestamp, intToDec 1000)]⟩
    [97] (fun _ _ => [171])).1 (by decide)

/-- C2: replay rejection. A nonce not in the cache is admitted once —
InCache returns false and inserts it with the cache's configured ttl — and
any further InCache call on that nonce before the entry expires returns
true; consequently, when AuthenticateRequestWithKey succeeds on a signed
request, running it again on the identical request against the returned
cache (the cache ttl being positive) fails with the replay error naming
the request's nonce. -/
theorem InCache_replay (nc : NonceCache) (nonce : Bytes) (now now2 : Int)
    (cfg : Config) (cache cache' : NonceCache) (r : Request) (key : Bytes)
    (f : Bytes → Bytes → Bytes)
    (hfresh : ttlmapGet nc.entries now nonce = false)
    (hbefore : now2 < now + nc.cacheTTL)
    (httl : 0 < cache.cacheTTL)
    (hauth : AuthenticateRequestWithKey cfg cache now r key f = (.ok (), cache')) :
    nc.InCache now nonce =
      (false, ⟨ttlmapSet nc.entries now nonce nc.cacheTTL, nc.cacheTTL⟩)
    ∧ ((⟨ttlmapSet nc.entries now nonce nc.cacheTTL,
         nc.cacheTTL⟩ : NonceCache).InCache now2 nonce).1 = true
    ∧ (AuthenticateRequestWithKey cfg cache' now r key f).1 =
        .error (.nonceInCache (headerGet r.headers cfg.NonceHeaderName)) := by
  obtain ⟨entries', ttl'⟩ := cache'
  refine ⟨?_, ?_, ?_⟩
  · exact InCache_of_fresh nc now nonce hfresh
  · have hget : ttlmapGet (ttlmapSet nc.entries now nonce nc.cacheTTL)
        now2 nonce = true := by
      simp [ttlmapGet, ttlmapSet, hbefore]
    simp [NonceCache.InCache, hget]
  · unfold AuthenticateRequestWithKey at hauth ⊢
    by_cases h1 : headerGet r.headers cfg.SignatureHeaderName = []
    · rw [if_pos h1] at hauth; exact absurd hauth (by simp)
    rw [if_neg h1] at hauth ⊢
    by_cases h2 : headerGet r.headers cfg.NonceHeaderName = []
    · rw [if_pos h2] at hauth; exact absurd hauth (by simp)
    rw [if_neg h2] at hauth ⊢
    by_cases h3 : headerGet r.headers cfg.TimestampHeaderName = []
    · rw [if_pos h3] at hauth; exact absurd hauth (by simp)
    rw [if_neg h3] at hauth ⊢
    cases hx : extractHeaderValues r.headers cfg.HeadersToSign with
    | error e => simp [hx] at hauth
    | ok hv =>
      simp only [hx] at hauth ⊢
      cases hm : checkMAC f key cfg.SignVerbAndURI r.method r.requestURI
          (headerGet r.headers cfg.TimestampHeaderName)
          (headerGet r.headers cfg.NonceHeaderName) r.body hv
          (headerGet r.headers cfg.SignatureHeaderName) with
      | error e => simp [hm] at hauth
      | ok u =>
        simp only [hm] at hauth ⊢
        cases hts : checkTimestamp cfg.TimestampHeaderName cache.cacheTTL now
            (headerGet r.headers cfg.TimestampHeaderName) with
        | error e => simp [hts] at hauth
        | ok u' =>
          simp only [hts] at hauth
          cases hic : cache.InCache now
              (headerGet r.headers cfg.NonceHeaderName) with
          | mk b c2 =>
            cases b
            · simp only [hic] at hauth
              have hc2 : c2 =
                  ⟨ttlmapSet cache.entries now
                    (headerGet r.headers cfg.NonceHeaderName) cache.cacheTTL,
                   cache.cacheTTL⟩ :=
                InCache_snd_of_false cache now _ c2 hic
              have hpair : c2 = (⟨entries', ttl'⟩ : NonceCache) :=
                (Prod.mk.injEq _ _ _ _ ▸ hauth).2
              rw [hc2] at hpair
              have hent : entries' = ttlmapSet cache.entries now
                  (headerGet r.headers cfg.NonceHeaderName) cache.cacheTTL :=
                (NonceCache.mk.injEq _ _ _ _ ▸ hpair).1.symm
              have httl' : ttl' = cache.cacheTTL :=
                (NonceCache.mk.injEq _ _ _ _ ▸ hpair).2.symm
              subst hent
              subst httl'
              simp only [hts]
              have hget2 : ttlmapGet (ttlmapSet cache.entries now
                  (headerGet r.headers cfg.NonceHeaderName) cache.cacheTTL) now
                  (headerGet r.headers cfg.NonceHeaderName) = true := by
                have hlt : now < now + cache.cacheTTL := by omega
                simp [ttlmapGet, ttlmapSet, hlt]
              simp [NonceCache.InCache, hget2]
            · simp [hic] at hauth

/-- Witness for C2: a fresh nonce is admitted once and rejected on re-check,
and re-authenticating the identical signed request against the returned
cache fails with the replay error. -/
theorem InCache_replay_witness :
    (AuthenticateRequestWithKey
      ⟨[], [], false, 100, 100, false, [], 0, [], XMailgunNonce,
       XMailgunTimestamp, XMailgunSignature, XMailgunSignatureVersion⟩
      ⟨[([110], 1100)], 100⟩ 1000
      ⟨[], [], [], [(XMailgunSignature, hexEncode [171]),
        (XMailgunNonce, [110]), (XMailgunTimestamp, intToDec 1000)]⟩
      [97] (fun _ _ => [171])).1 =
      .error (.nonceInCache (headerGet
        [(XMailgunSignature, hexEncode [171]), (XMailgunNonce, [110]),
         (XMailgunTimestamp, intToDec 1000)] XMailgunNonce)) :=
  (InCache_replay ⟨[], 50⟩ [120] 1000 1010
    ⟨[], [], false, 100, 100, false, [], 0, [], XMailgunNonce,
     XMailgunTimestamp, XMailgunSignature, XMailgunSignatureVersion⟩
    ⟨[], 100⟩ ⟨[([110], 1100)], 100⟩
    ⟨[], [], [], [(XMailgunSignature, hexEncode [171]),
      (XMailgunNonce, [110]), (XMailgunTimestamp, intToDec 1000)]⟩
    [97] (fun _ _ => [171])
    (by decide) (by decide) (by decide) (by decide)).2.2

/-- C1: sign/authenticate round-trip. If SignRequestWithKey succeeds on a
request (so every configured signed header was present), then
AuthenticateRequestWithKey on the signed request with the same key and the
same clock reading succeeds, provided: the four configured header names are
pairwise distinct and none of them is in the signed-header allow-list (the
four authentication headers are set by signing, so signing over them cannot
round-trip), the nonce is non-empty (an empty nonce header reads as
absent), the HMAC primitive returns non-empty byte strings, the clock
reading fits in an int64, the cache ttl exceeds the allowed skew (so the
same clock reading is inside the timestamp window), and the nonce was not
already admitted. -/
theorem SignRequest_AuthenticateRequest_roundtrip
    (f : Bytes → Bytes → Bytes) (cfg : Config) (cache : NonceCache)
    (r r' : Request) (secretKey nonce : Bytes) (now : Int)
    (hnonce : nonce ≠ [])
    (h12 : cfg.NonceHeaderName ≠ cfg.TimestampHeaderName)
    (h13 : cfg.NonceHeaderName ≠ cfg.SignatureHeaderName)
    (h14 : cfg.NonceHeaderName ≠ cfg.SignatureVersionHeaderName)
    (h23 : cfg.TimestampHeaderName ≠ cfg.SignatureHeaderName)
    (h24 : cfg.TimestampHeaderName ≠ cfg.SignatureVersionHeaderName)
    (h34 : cfg.SignatureHeaderName ≠ cfg.SignatureVersionHeaderName)
    (hd1 : cfg.NonceHeaderName ∉ cfg.HeadersToSign)
    (hd2 : cfg.TimestampHeaderName ∉ cfg.HeadersToSign)
    (hd3 : cfg.SignatureHeaderName ∉ cfg.HeadersToSign)
    (hd4 : cfg.SignatureVersionHeaderName ∉ cfg.HeadersToSign)
    (hfb : ∀ k m b, b ∈ f k m → b < 256)
    (hfn : ∀ k m, f k m ≠ [])
    (hr1 : int64Min ≤ now) (hr2 : now ≤ int64Max)
    (httl : MaxSkewSec < cache.cacheTTL)
    (hfresh : ttlmapGet cache.entries now nonce = false)
    (hsign : SignRequestWithKey cfg (.ok nonce) now r secretKey f = .ok r') :
    (AuthenticateRequestWithKey cfg cache now r' secretKey f).1 = .ok () := by
  simp only [SignRequestWithKey] at hsign
  cases hx : extractHeaderValues r.headers cfg.HeadersToSign with
  | error e => simp [hx] at hsign
  | ok hv =>
    simp only [hx] at hsign
    injection hsign with hr'
    subst hr'
    have g_sig : headerGet
        (headerSet
          (headerSet
            (headerSet (headerSet r.headers cfg.NonceHeaderName nonce)
              cfg.TimestampHeaderName (intToDec now))
            cfg.SignatureHeaderName
            (hexEncode (computeMAC f secretKey cfg.SignVerbAndURI r.method
              r.requestURI (intToDec now) nonce r.body hv)))
          cfg.SignatureVersionHeaderName (str "2"))
        cfg.SignatureHeaderName =
        hexEncode (computeMAC f secretKey cfg.SignVerbAndURI r.method
          r.requestURI (intToDec now) nonce r.body hv) := by
      rw [headerGet_set_ne _ _ _ _ h34, headerGet_set_self]
    have g_nonce : headerGet
        (headerSet
          (headerSet
            (headerSet (headerSet r.headers cfg.NonceHeaderName nonce)
              cfg.TimestampHeaderName (intToDec now))
            cfg.SignatureHeaderName
            (hexEncode (computeMAC f secretKey cfg.SignVerbAndURI r.method
              r.requestURI (intToDec now) nonce r.body hv)))
          cfg.SignatureVersionHeaderName (str "2"))
        cfg.NonceHeaderName = nonce := by
      rw [headerGet_set_ne _ _ _ _ h14, headerGet_set_ne _ _ _ _ h13,
        headerGet_set_ne _ _ _ _ h12, headerGet_set_self]
    have g_ts : headerGet
        (headerSet
          (headerSet
            (headerSet (headerSet r.headers cfg.NonceHeaderName nonce)
              cfg.TimestampHeaderName (intToDec now))
            cfg.SignatureHeaderName
            (hexEncode (computeMAC f secretKey cfg.SignVerbAndURI r.method
              r.requestURI (intToDec now) nonce r.body hv)))
          cfg.SignatureVersionHeaderName (str "2"))
        cfg.TimestampHeaderName = intToDec now := by
      rw [headerGet_set_ne _ _ _ _ h24, headerGet_set_ne _ _ _ _ h23,
        headerGet_set_self]
    have g_ext : extractHeaderValues
        (headerSet
          (headerSet
            (headerSet (headerSet r.headers cfg.NonceHeaderName nonce)
              cfg.TimestampHeaderName (intToDec now))
            cfg.SignatureHeaderName
            (hexEncode (computeMAC f secretKey cfg.SignVerbAndURI r.method
              r.requestURI (intToDec now) nonce r.body hv)))
          cfg.SignatureVersionHeaderName (str "2"))
        cfg.HeadersToSign = .ok hv := by
      rw [extractHeaderValues_set_ne _ _ _ _ hd4,
        extractHeaderValues_set_ne _ _ _ _ hd3,
        extractHeaderValues_set_ne _ _ _ _ hd2,
        extractHeaderValues_set_ne _ _ _ _ hd1, hx]
    have hsig_ne : hexEncode (computeMAC f secretKey cfg.SignVerbAndURI
        r.method r.requestURI (intToDec now) nonce r.body hv) ≠ [] :=
      hexEncode_ne_nil _ (hfn secretKey _)
    have hcm : checkMAC f secretKey cfg.SignVerbAndURI r.method r.requestURI
        (intToDec now) nonce r.body hv
        (hexEncode (computeMAC f secretKey cfg.SignVerbAndURI r.method
          r.requestURI (intToDec now) nonce r.body hv)) = .ok () := by
      rw [checkMAC, hexDecode_hexEncode
        (computeMAC f secretKey cfg.SignVerbAndURI r.method r.requestURI
          (intToDec now) nonce r.body hv)
        (fun b hb => hfb secretKey
          (macInput cfg.SignVerbAndURI r.method r.requestURI (intToDec now)
            nonce r.body hv) b hb)]
      simp
    have hct : checkTimestamp cfg.TimestampHeaderName cache.cacheTTL now
        (intToDec now) = .ok () := by
      rw [checkTimestamp_int _ _ now now hr1 hr2]
      rw [if_neg (by simp only [MaxSkewSec]; omega), if_neg (by omega)]
    simp only [AuthenticateRequestWithKey, g_sig, g_nonce, g_ts, g_ext, hcm,
      hct, if_neg hsig_ne, if_neg hnonce, if_neg (intToDec_ne_nil now)]
    rw [InCache_of_fresh cache now nonce hfresh]

/-- Witness for C1: signing a request with body "h" under the default header
names and authenticating the result at the same clock reading succeeds. -/
theorem SignRequest_AuthenticateRequest_roundtrip_witness :
    (AuthenticateRequestWithKey
      ⟨[], [], false, 100, 100, false, [], 0, [], XMailgunNonce,
       XMailgunTimestamp, XMailgunSignature, XMailgunSignatureVersion⟩
      ⟨[], 100⟩ 1000
      ⟨[], [], [104], [(XMailgunSignatureVersion, str "2"),
        (XMailgunSignature, hexEncode [171]),
        (XMailgunTimestamp, intToDec 1000), (XMailgunNonce, [110])]⟩
      [97] (fun _ _ => [171])).1 = .ok () :=
  SignRequest_AuthenticateRequest_roundtrip (fun _ _ => [171])
    ⟨[], [], false, 100, 100, false, [], 0, [], XMailgunNonce,
     XMailgunTimestamp, XMailgunSignature, XMailgunSignatureVersion⟩
    ⟨[], 100⟩ ⟨[], [], [104], []⟩
    ⟨[], [], [104], [(XMailgunSignatureVersion, str "2"),
      (XMailgunSignature, hexEncode [171]),
      (XMailgunTimestamp, intToDec 1000), (XMailgunNonce, [110])]⟩
    [97] [110] 1000
    (by decide) (by decide) (by decide) (by decide) (by decide) (by decide)
    (by decide) (by decide) (by decide) (by decide) (by decide)
    (fun _ _ b hb => by
      simp only [List.mem_singleton] at hb
      subst hb
      decide)
    (fun _ _ => List.cons_ne_nil 171 [])
    (by decide) (by decide) (by decide) (by decide) (by decide)
